import Mathlib

/-!
# Verification of the ztxexp configuration pipeline and execution engine

Shallow embedding of `ztxexp/manager.py` (`ExpManager`) and
`ztxexp/runner.py` (`ExpRunner`) in Lean 4, together with theorems about
the behaviour the specification describes.

Modelling conventions:
* An `argparse.Namespace` (equivalently, its `vars(...)` dictionary, or a
  dictionary loaded from `args.json`) is a `Config`: an association list
  from attribute names to `Value`s, where `setAttr` replaces an existing
  key in place (as Python dict assignment does) and appends new keys at
  the end (Python dicts preserve insertion order).
* Python scalars are `Scalar` (numbers as rationals, strings, booleans,
  `None`); a top-level container value is either a list or a tuple of
  scalars, which is exactly the distinction
  `ExpManager._are_configs_equal` normalises away via `tuple(...)`.
* Filesystem effects of the runner are an explicit event trace; the
  exception behaviour of the user callable is an `Except` result.
-/

set_option autoImplicit false

namespace Ztxexp

/-- A scalar Python value as it appears in an experiment configuration. -/
inductive Scalar where
  | num (q : Rat)
  | str (s : String)
  | bool (b : Bool)
  | none
  deriving DecidableEq, Repr

/-- A configuration attribute value: a scalar, a list of scalars or a
tuple of scalars.  Lists and tuples are distinct values (in Python,
`[1,2] == (1,2)` is `False`); `_are_configs_equal` normalises lists to
tuples before comparing. -/
inductive Value where
  | scalar (s : Scalar)
  | vlist (xs : List Scalar)
  | vtup (xs : List Scalar)
  deriving DecidableEq, Repr

/-- A configuration: the attribute dictionary of an `argparse.Namespace`
(ordered key/value pairs, keys unique by construction of `setAttr`). -/
abbrev Config := List (String × Value)

/-- `getattr` / dictionary lookup: first entry with the given key. -/
def getAttr? : Config → String → Option Value
  | [], _ => Option.none
  | (k', v') :: rest, k => if k' = k then some v' else getAttr? rest k

/-- `setattr` / dictionary assignment: replace the value of an existing
key in place, otherwise append the new binding at the end. -/
def setAttr : Config → String → Value → Config
  | [], k, v => [(k, v)]
  | (k', v') :: rest, k, v =>
      if k' = k then (k, v) :: rest else (k', v') :: setAttr rest k v

/-- Apply a list of key/value assignments in order (the inner loop of
`add_grid_search`). -/
def setAttrs (c : Config) (kvs : List (String × Value)) : Config :=
  kvs.foldl (fun acc kv => setAttr acc kv.1 kv.2) c

/-- The keys of a configuration dictionary. -/
def keysOf (c : Config) : List String := c.map Prod.fst

/-- The normalisation `tuple(x) if isinstance(x, list) else x` performed
on both sides by `_are_configs_equal` ("Handle list vs tuple for JSON
compatibility"). -/
def normVal : Value → Value
  | .vlist xs => .vtup xs
  | v => v

/-- Lookup with a default, used only at keys known to be present. -/
def getVal (c : Config) (k : String) : Value :=
  (getAttr? c k).getD (.scalar .none)

/-- `ExpManager._are_configs_equal`: drop the ignored keys from both key
sets, intersect, and require equal (normalised) values at every common
key. -/
def are_configs_equal (c1 c2 : Config) (ignore : List String) : Bool :=
  let keys1 := (keysOf c1).filter (fun k => decide (k ∉ ignore))
  let keys2 := (keysOf c2).filter (fun k => decide (k ∉ ignore))
  let common := keys1.filter (fun k => decide (k ∈ keys2))
  common.all (fun k => decide (normVal (getVal c1 k) = normVal (getVal c2 k)))

/-- `ExpManager.filter_completed`, at the level of the already
materialised sequence: if no completed snapshot was loaded the sequence
is untouched, otherwise every configuration matching some snapshot under
`are_configs_equal` is removed. -/
def filter_completed (configs : List Config) (completed : List Config)
    (ignore : List String) : List Config :=
  if completed.isEmpty then configs
  else configs.filter
    (fun c => !(completed.any (fun comp => are_configs_equal c comp ignore)))

theorem getAttr?_setAttr_self (c : Config) (k : String) (v : Value) :
    getAttr? (setAttr c k v) k = some v := by
  induction c with
  | nil => simp [setAttr, getAttr?]
  | cons p rest ih =>
      by_cases h : p.1 = k
      · simp [setAttr, h, getAttr?]
      · simp [setAttr, h, getAttr?, ih]

theorem getAttr?_setAttr_ne (c : Config) (k k' : String) (v : Value)
    (hne : k ≠ k') : getAttr? (setAttr c k' v) k = getAttr? c k := by
  have hk'k : ¬ k' = k := fun hh => hne hh.symm
  induction c with
  | nil => simp [setAttr, getAttr?, hk'k]
  | cons p rest ih =>
      by_cases h : p.1 = k'
      · have hpk : ¬ p.1 = k := by rw [h]; exact hk'k
        simp [setAttr, h, getAttr?, hpk, hk'k]
      · by_cases h2 : p.1 = k <;> simp [setAttr, h, getAttr?, h2, ih, hne]

/-- The membership characterisation of `are_configs_equal`: it returns
`true` iff every non-ignored key present in both dictionaries carries
equal values after list→tuple normalisation. -/
theorem are_configs_equal_iff (c1 c2 : Config) (ignore : List String) :
    are_configs_equal c1 c2 ignore = true ↔
      ∀ k, k ∈ keysOf c1 → k ∈ keysOf c2 → k ∉ ignore →
        normVal (getVal c1 k) = normVal (getVal c2 k) := by
  unfold are_configs_equal
  simp only [List.all_eq_true, List.mem_filter, decide_eq_true_eq]
  constructor
  · intro h k hk1 hk2 hni
    exact h k ⟨⟨hk1, hni⟩, hk2, hni⟩
  · intro h k hk
    exact h k hk.1.1 hk.2.1 hk.1.2

/-- The prior snapshot `{lr: 0.01, model: "A"}` from the spec's dedup
example (`0.01` is the rational `1/100` in lowest terms). -/
def exPrior : Config :=
  [("lr", .scalar (.num (Rat.mk' 1 100))), ("model", .scalar (.str "A"))]

/-- The current configuration `{lr: 0.01, model: "A", seed: 7}` from the
spec's dedup example. -/
def exCurrent : Config :=
  [("lr", .scalar (.num (Rat.mk' 1 100))), ("model", .scalar (.str "A")),
   ("seed", .scalar (.num (Rat.mk' 7 1)))]

/-- The non-matching configuration `{lr: 0.02, model: "A"}` from the
spec's dedup example (`0.02` is the rational `1/50` in lowest terms). -/
def exOther : Config :=
  [("lr", .scalar (.num (Rat.mk' 1 50))), ("model", .scalar (.str "A"))]

/-- C1: the deduplication equality holds iff, after removing the ignored
keys, every key present in both dictionaries has an equal value (lists
and tuples compared element-wise via `normVal`); keys on one side only
never cause a mismatch.  The two spec examples are included: the richer
current config matches the leaner snapshot, and a changed `lr` does
not. -/
theorem dedup_equal_common_key_spec :
    (∀ (c1 c2 : Config) (ignore : List String),
      are_configs_equal c1 c2 ignore = true ↔
        ∀ k, k ∈ keysOf c1 → k ∈ keysOf c2 → k ∉ ignore →
          normVal (getVal c1 k) = normVal (getVal c2 k)) ∧
    are_configs_equal exCurrent exPrior [] = true ∧
    are_configs_equal exPrior exCurrent [] = true ∧
    are_configs_equal exOther exPrior [] = false := by
  refine ⟨are_configs_equal_iff, by decide, by decide, by decide⟩

/-- C9: two configurations sharing no keys after removal of the ignored
keys are vacuously judged equal, so `filter_completed` removes any
configuration for which some loaded snapshot is key-disjoint from it. -/
theorem dedup_vacuous_on_disjoint_keys
    (configs completed : List Config) (c comp : Config)
    (ignore : List String) (hmem : comp ∈ completed)
    (hdisj : ∀ k, k ∈ keysOf c → k ∉ ignore → k ∉ keysOf comp) :
    are_configs_equal c comp ignore = true ∧
    c ∉ filter_completed configs completed ignore := by
  have heq : are_configs_equal c comp ignore = true := by
    rw [are_configs_equal_iff]
    intro k hk1 hk2 hni
    exact absurd hk2 (hdisj k hk1 hni)
  refine ⟨heq, ?_⟩
  have hne : completed.isEmpty = false := by
    cases completed with
    | nil => cases hmem
    | cons a l => rfl
  intro hc
  unfold filter_completed at hc
  rw [hne] at hc
  simp only [Bool.false_eq_true, if_false, List.mem_filter,
    Bool.not_eq_true', List.any_eq_false] at hc
  exact absurd heq (by simpa using hc.2 comp hmem)

/-- Concrete instance of C9: `{a: true}` is judged equal to the
key-disjoint snapshot `{b: false}` and is filtered out. -/
theorem dedup_vacuous_on_disjoint_keys_witness :
    are_configs_equal [("a", .scalar (.bool true))]
        [("b", .scalar (.bool false))] [] = true ∧
    [("a", Value.scalar (.bool true))] ∉
      filter_completed [[("a", .scalar (.bool true))]]
        [[("b", .scalar (.bool false))]] [] :=
  dedup_vacuous_on_disjoint_keys
    [[("a", .scalar (.bool true))]] [[("b", .scalar (.bool false))]]
    [("a", .scalar (.bool true))] [("b", .scalar (.bool false))] []
    (by decide)
    (by intro k hk _; simp [keysOf] at hk ⊢; subst hk; decide)

/-- `itertools.product` over a list of value lists, in Python's order:
the rightmost dimension varies fastest. -/
def listProd : List (List Value) → List (List Value)
  | [] => [[]]
  | l :: ls => l.flatMap (fun v => (listProd ls).map (fun c => v :: c))

/-- `ExpManager.add_grid_search` acting on the base configuration set:
an empty grid is a no-op, otherwise every base configuration is expanded
to one copy per combination of the grid values, assigned with `setattr`
key by key. -/
def add_grid_search (base : List Config)
    (grid : List (String × List Value)) : List Config :=
  if grid.isEmpty then base
  else base.flatMap (fun c =>
    (listProd (grid.map Prod.snd)).map
      (fun combo => setAttrs c ((grid.map Prod.fst).zip combo)))

theorem length_listProd (ls : List (List Value)) :
    (listProd ls).length = (ls.map List.length).prod := by
  induction ls with
  | nil => rfl
  | cons l ls ih =>
      simp only [listProd, List.length_flatMap, Function.comp_def,
        List.length_map, ih, List.map_cons, List.prod_cons]
      rw [List.map_const', List.sum_replicate, smul_eq_mul]

theorem mem_listProd {ls : List (List Value)} {combo : List Value} :
    combo ∈ listProd ls ↔ List.Forall₂ (fun v l => v ∈ l) combo ls := by
  induction ls generalizing combo with
  | nil =>
      simp only [listProd, List.mem_singleton]
      constructor
      · rintro rfl; exact List.Forall₂.nil
      · intro h; cases h; rfl
  | cons l ls ih =>
      simp only [listProd, List.mem_flatMap, List.mem_map]
      constructor
      · rintro ⟨v, hv, c, hc, rfl⟩
        exact List.Forall₂.cons hv (ih.mp hc)
      · intro h
        cases h with
        | cons hv hc => exact ⟨_, hv, _, ih.mpr hc, rfl⟩

theorem length_of_mem_listProd {ls : List (List Value)}
    {combo : List Value} (h : combo ∈ listProd ls) :
    combo.length = ls.length :=
  (mem_listProd.mp h).length_eq

theorem nodup_listProd {ls : List (List Value)}
    (h : ∀ l ∈ ls, l.Nodup) : (listProd ls).Nodup := by
  induction ls with
  | nil => simp [listProd]
  | cons l ls ih =>
      have hl : l.Nodup := h l (by simp)
      have hrec : (listProd ls).Nodup := ih (fun x hx => h x (by simp [hx]))
      simp only [listProd]
      rw [List.nodup_flatMap]
      refine ⟨fun v _ => hrec.map (fun a b hab => by simpa using hab), ?_⟩
      refine hl.pairwise_of_forall_ne (fun a ha b hb hab => ?_)
      simp only [List.disjoint_left, List.mem_map]
      rintro x ⟨c, _, rfl⟩ ⟨c', _, hx⟩
      exact hab (List.cons.injEq .. ▸ hx.symm).1

theorem getAttr?_setAttrs_not_mem (kvs : List (String × Value))
    (c : Config) (k : String) (hk : k ∉ kvs.map Prod.fst) :
    getAttr? (setAttrs c kvs) k = getAttr? c k := by
  induction kvs generalizing c with
  | nil => rfl
  | cons kv rest ih =>
      simp only [List.map_cons, List.mem_cons, not_or] at hk
      have step : setAttrs c (kv :: rest) = setAttrs (setAttr c kv.1 kv.2) rest := rfl
      rw [step, ih _ hk.2]
      exact getAttr?_setAttr_ne _ _ _ _ hk.1

theorem getAttr?_setAttrs_mem (kvs : List (String × Value)) (c : Config)
    (k : String) (v : Value) (hnd : (kvs.map Prod.fst).Nodup)
    (hmem : (k, v) ∈ kvs) :
    getAttr? (setAttrs c kvs) k = some v := by
  induction kvs generalizing c with
  | nil => cases hmem
  | cons kv rest ih =>
      simp only [List.map_cons, List.nodup_cons] at hnd
      have step : setAttrs c (kv :: rest) = setAttrs (setAttr c kv.1 kv.2) rest := rfl
      rcases List.mem_cons.mp hmem with h | h
      · have hk : kv.1 = k := by rw [← h]
        have hv : kv.2 = v := by rw [← h]
        have hnm : k ∉ rest.map Prod.fst := by
          rw [← hk]; simpa using hnd.1
        rw [step, getAttr?_setAttrs_not_mem _ _ _ hnm, hk, hv,
          getAttr?_setAttr_self]
      · exact step ▸ ih (setAttr c kv.1 kv.2) hnd.2 h

/-- C3: grid expansion yields `B · ∏ |G[k]|` configurations (an empty
grid leaving the set unchanged), each one a base configuration with one
combination from the grid assigned via `setattr`; keys not named in the
grid keep their base values, each grid key carries exactly its entry of
the combination, and when the grid's value lists are duplicate-free the
combinations are pairwise distinct. -/
theorem grid_expand_spec (base : List Config)
    (grid : List (String × List Value)) :
    (add_grid_search base grid).length
        = base.length * (grid.map (fun kv => kv.2.length)).prod
    ∧ add_grid_search base [] = base
    ∧ (∀ x ∈ add_grid_search base grid, ∃ c ∈ base,
        ∃ combo ∈ listProd (grid.map Prod.snd),
          x = setAttrs c ((grid.map Prod.fst).zip combo)
          ∧ (∀ k, k ∉ grid.map Prod.fst → getAttr? x k = getAttr? c k)
          ∧ ((grid.map Prod.fst).Nodup →
              ∀ p ∈ (grid.map Prod.fst).zip combo, getAttr? x p.1 = some p.2))
    ∧ ((∀ kv ∈ grid, kv.2.Nodup) → (listProd (grid.map Prod.snd)).Nodup) := by
  refine ⟨?_, rfl, ?_, ?_⟩
  · by_cases hg : grid.isEmpty
    · rw [List.isEmpty_iff] at hg
      subst hg
      simp [add_grid_search]
    · simp only [add_grid_search, hg, Bool.false_eq_true, if_false,
        List.length_flatMap, Function.comp_def, List.length_map,
        length_listProd, List.map_map, List.map_const', List.sum_replicate,
        smul_eq_mul]
  · intro x hx
    by_cases hg : grid.isEmpty
    · rw [List.isEmpty_iff] at hg
      subst hg
      simp only [add_grid_search] at hx
      exact ⟨x, by simpa using hx, [], by simp [listProd], rfl,
        fun k _ => rfl, fun _ p hp => by cases hp⟩
    · simp only [add_grid_search, hg, Bool.false_eq_true, if_false,
        List.mem_flatMap, List.mem_map] at hx
      obtain ⟨c, hc, combo, hcombo, rfl⟩ := hx
      have hlen : combo.length = (grid.map Prod.fst).length := by
        rw [length_of_mem_listProd hcombo]; simp
      refine ⟨c, hc, combo, hcombo, rfl, ?_, ?_⟩
      · intro k hk
        refine getAttr?_setAttrs_not_mem _ _ _ (fun hmem => hk ?_)
        obtain ⟨p, hp, rfl⟩ := List.mem_map.mp hmem
        exact (List.of_mem_zip hp).1
      · intro hnd p hp
        have hfst : ((grid.map Prod.fst).zip combo).map Prod.fst
            = grid.map Prod.fst :=
          List.map_fst_zip _ _ (le_of_eq hlen.symm)
        exact getAttr?_setAttrs_mem _ _ _ _ (by rw [hfst]; exact hnd)
          (by obtain ⟨p1, p2⟩ := p; exact hp)
  · intro h
    refine nodup_listProd (fun l hl => ?_)
    obtain ⟨kv, hkv, rfl⟩ := List.mem_map.mp hl
    exact h kv hkv

/-- A two-key grid used to instantiate the grid-expansion theorem. -/
def gridEx : List (String × List Value) :=
  [("a", [.scalar (.bool true), .scalar (.bool false)]),
   ("b", [.scalar (.str "c")])]

/-- Concrete instance of C3: the combination list of a duplicate-free
2×1 grid is duplicate-free, and expansion of a one-element base set has
the predicted size. -/
theorem grid_expand_spec_witness :
    (listProd (gridEx.map Prod.snd)).Nodup ∧
    (add_grid_search [[("x", .scalar .none)]] gridEx).length = 2 :=
  ⟨(grid_expand_spec [[("x", .scalar .none)]] gridEx).2.2.2 (by decide),
   by rw [(grid_expand_spec [[("x", .scalar .none)]] gridEx).1]; rfl⟩

theorem sum_len_mul (l : List (String × List Value)) (b : Nat) :
    (l.map (fun kv => kv.2.length * b)).sum
      = b * (l.map (fun kv => kv.2.length)).sum := by
  induction l with
  | nil => simp
  | cons kv rest ih =>
      simp only [List.map_cons, List.sum_cons, ih, Nat.mul_add]
      ring

/-- `ExpManager.add_variants` acting on the base configuration set: a
no-op for an empty variant space, otherwise the current set followed by,
for each key, for each of its values, one copy of every current
configuration with that single key overridden. -/
def add_variants (base : List Config)
    (vspace : List (String × List Value)) : List Config :=
  if vspace.isEmpty then base
  else base ++ vspace.flatMap (fun kv =>
    kv.2.flatMap (fun v => base.map (fun c => setAttr c kv.1 v)))

/-- C4 (amended): variant expansion yields `n·(1 + Σ |V[k]|)`
configurations whose first `n` entries are the pre-call set unchanged;
every later entry is a copy of a pre-call configuration with exactly one
key overridden to one variant value.  The count of entries equal to some
pre-call configuration is exactly `n` only under the additional
hypothesis that no override reproduces a pre-call configuration. -/
theorem variant_expand_spec (base : List Config)
    (vspace : List (String × List Value)) :
    (add_variants base vspace).length
        = base.length * (1 + (vspace.map (fun kv => kv.2.length)).sum)
    ∧ (add_variants base vspace).take base.length = base
    ∧ (∀ x ∈ (add_variants base vspace).drop base.length,
        ∃ kv ∈ vspace, ∃ v ∈ kv.2, ∃ c ∈ base, x = setAttr c kv.1 v)
    ∧ ((∀ kv ∈ vspace, ∀ v ∈ kv.2, ∀ c ∈ base, setAttr c kv.1 v ∉ base) →
        (add_variants base vspace).countP (fun x => decide (x ∈ base))
          = base.length) := by
  by_cases hv : vspace.isEmpty
  · rw [List.isEmpty_iff] at hv
    subst hv
    refine ⟨by simp [add_variants], by simp [add_variants], ?_, ?_⟩
    · intro x hx
      simp [add_variants] at hx
    · intro _
      simp only [add_variants, List.isEmpty_nil, if_true]
      exact List.countP_eq_length.mpr (fun a ha => by simpa using ha)
  · have hdef : add_variants base vspace
        = base ++ vspace.flatMap (fun kv =>
            kv.2.flatMap (fun v => base.map (fun c => setAttr c kv.1 v))) := by
      simp only [add_variants, hv, Bool.false_eq_true, if_false]
    refine ⟨?_, ?_, ?_, ?_⟩
    · rw [hdef]
      simp only [List.length_append, List.length_flatMap, Function.comp_def,
        List.length_map, List.map_const', List.sum_replicate, smul_eq_mul]
      rw [Nat.mul_add, Nat.mul_one]
      congr 1
      rw [sum_len_mul]
    · rw [hdef, List.take_left]
    · rw [hdef, List.drop_left]
      intro x hx
      simp only [List.mem_flatMap, List.mem_map] at hx
      obtain ⟨kv, hkv, v, hvv, c, hc, rfl⟩ := hx
      exact ⟨kv, hkv, v, hvv, c, hc, rfl⟩
    · intro hfresh
      rw [hdef, List.countP_append]
      have h1 : base.countP (fun x => decide (x ∈ base)) = base.length :=
        List.countP_eq_length.mpr (fun a ha => by simpa using ha)
      have h2 : (vspace.flatMap (fun kv =>
          kv.2.flatMap (fun v => base.map (fun c => setAttr c kv.1 v)))).countP
            (fun x => decide (x ∈ base)) = 0 := by
        rw [List.countP_eq_zero]
        intro a ha
        simp only [List.mem_flatMap, List.mem_map] at ha
        obtain ⟨kv, hkv, v, hvv, c, hc, rfl⟩ := ha
        simpa using hfresh kv hkv v hvv c hc
      rw [h1, h2]
      exact Nat.add_zero _

/-- The single-key configuration `{k: true}` used in the variant
counterexample and witness. -/
def cfgK : Config := [("k", .scalar (.bool true))]

/-- Counterexample to C4 as stated: with pre-call set `[{k: true}]`
(n = 1) and variant space `{k: [true]}`, the override reproduces the
original, so the result holds two configurations equal to members of the
pre-call set, not exactly n = 1. -/
theorem variant_expand_exactly_n_cex :
    (List.length [cfgK] = 1) ∧
    (add_variants [cfgK] [("k", [.scalar (.bool true)])]).length = 2 ∧
    (add_variants [cfgK] [("k", [.scalar (.bool true)])]).countP
        (fun x => decide (x ∈ [cfgK])) = 2 := by
  refine ⟨rfl, rfl, rfl⟩

/-- Concrete instance of C4 (amended): when the single override changes
the value, exactly n = 1 result entry equals a pre-call configuration. -/
theorem variant_expand_spec_witness :
    (add_variants [cfgK] [("k", [.scalar (.bool false)])]).countP
        (fun x => decide (x ∈ [cfgK])) = 1 :=
  ((variant_expand_spec [cfgK] [("k", [.scalar (.bool false)])]).2.2.2
    (by decide)).trans rfl

/-- The mutable state of an `ExpManager` instance: the pre-materialisation
base set, the materialised sequence, the registered modifier and filter
callables, and the one-shot generation flag. -/
structure ExpManager where
  base_configs : List Config
  configs : List Config
  modifiers : List (Config → Config)
  filters : List (Config → Bool)
  is_generated : Bool

/-- `ExpManager.__init__`: one deep copy of the base arguments, nothing
registered, nothing generated yet. -/
def ExpManager.init (base : Config) : ExpManager :=
  ⟨[base], [], [], [], false⟩

/-- The inner modifier loop of `_generate_if_needed`: chain every
modifier over one configuration, counting modifier invocations. -/
def applyModifiers (mods : List (Config → Config)) (c : Config) :
    Config × Nat :=
  mods.foldl (fun acc m => (m acc.1, acc.2 + 1)) (c, 0)

/-- The modifier stage of `_generate_if_needed` over the whole current
set, with the total number of modifier invocations. -/
def modifyAll (mods : List (Config → Config)) :
    List Config → List Config × Nat
  | [] => ([], 0)
  | c :: cs =>
      let r := applyModifiers mods c
      let rest := modifyAll mods cs
      (r.1 :: rest.1, r.2 + rest.2)

/-- Python's short-circuiting `all(f(config) for f in filters)`: filters
run in order until the first rejection, counting filter invocations. -/
def allFilters : List (Config → Bool) → Config → Bool × Nat
  | [], _ => (true, 0)
  | f :: fs, c =>
      if f c then
        let r := allFilters fs c
        (r.1, r.2 + 1)
      else (false, 1)

/-- The filter stage of `_generate_if_needed` over the whole current
set, with the total number of filter invocations. -/
def filterAll (fils : List (Config → Bool)) :
    List Config → List Config × Nat
  | [] => ([], 0)
  | c :: cs =>
      let r := allFilters fils c
      let rest := filterAll fils cs
      (if r.1 then c :: rest.1 else rest.1, r.2 + rest.2)

/-- `ExpManager._generate_if_needed`: a no-op once `_is_generated` is
set, otherwise the modifier stage followed by the filter stage.  The two
returned numbers instrument the run: total modifier invocations and
total filter invocations performed by this call. -/
def generate_if_needed (s : ExpManager) : ExpManager × Nat × Nat :=
  if s.is_generated then (s, 0, 0)
  else
    let m := if s.modifiers.isEmpty then (s.base_configs, 0)
             else modifyAll s.modifiers s.base_configs
    let f := if s.filters.isEmpty then (m.1, 0)
             else filterAll s.filters m.1
    ({ s with configs := f.1, is_generated := true }, m.2, f.2)

/-- `ExpManager.get_configs`: materialise if needed and return the
sequence, the updated manager, and the instrumented invocation counts. -/
def get_configs (s : ExpManager) : List Config × ExpManager × Nat × Nat :=
  let r := generate_if_needed s
  (r.1.configs, r)

theorem applyModifiers_aux (mods : List (Config → Config)) (c : Config)
    (n : Nat) :
    (mods.foldl (fun acc m => (m acc.1, acc.2 + 1)) (c, n)).2
      = n + mods.length := by
  induction mods generalizing c n with
  | nil => rfl
  | cons m rest ih =>
      simp only [List.foldl_cons, ih, List.length_cons]
      omega

theorem applyModifiers_count (mods : List (Config → Config)) (c : Config) :
    (applyModifiers mods c).2 = mods.length := by
  unfold applyModifiers
  rw [applyModifiers_aux]
  omega

theorem modifyAll_length (mods : List (Config → Config))
    (cs : List Config) : (modifyAll mods cs).1.length = cs.length := by
  induction cs with
  | nil => rfl
  | cons c cs ih => simp [modifyAll, ih]

theorem modifyAll_count (mods : List (Config → Config))
    (cs : List Config) :
    (modifyAll mods cs).2 = cs.length * mods.length := by
  induction cs with
  | nil => simp [modifyAll]
  | cons c cs ih =>
      simp only [modifyAll, ih, applyModifiers_count, List.length_cons]
      ring

theorem allFilters_count_le (fils : List (Config → Bool)) (c : Config) :
    (allFilters fils c).2 ≤ fils.length := by
  induction fils with
  | nil => exact Nat.le_refl 0
  | cons f fs ih =>
      simp only [allFilters, List.length_cons]
      by_cases h : f c
      · simp only [h, if_true]
        omega
      · simp only [h, Bool.false_eq_true, if_false]
        omega

theorem filterAll_count_le (fils : List (Config → Bool))
    (cs : List Config) :
    (filterAll fils cs).2 ≤ cs.length * fils.length := by
  induction cs with
  | nil => simp [filterAll]
  | cons c cs ih =>
      have h := allFilters_count_le fils c
      simp only [filterAll, List.length_cons, Nat.succ_mul]
      omega

theorem generate_is_generated (s : ExpManager) :
    (generate_if_needed s).1.is_generated = true := by
  unfold generate_if_needed
  by_cases h : s.is_generated <;> simp [h]

theorem generate_of_generated (s : ExpManager)
    (h : s.is_generated = true) : generate_if_needed s = (s, 0, 0) := by
  unfold generate_if_needed
  simp [h]

/-- C5 (amended): a second `get_configs` call returns the identical
sequence and state and performs zero modifier and zero filter
invocations; the first materialisation applies each modifier to each
configuration exactly once (`B·|modifiers|` invocations in total), while
filters are invoked at most `B·|filters|` times — the short-circuiting
`all(...)` skips the filters after the first rejecting one. -/
theorem get_configs_idempotent_spec (s : ExpManager) :
    (get_configs (get_configs s).2.1).1 = (get_configs s).1
    ∧ (get_configs (get_configs s).2.1).2.1 = (get_configs s).2.1
    ∧ (get_configs (get_configs s).2.1).2.2 = (0, 0)
    ∧ (s.is_generated = false →
        (get_configs s).2.2.1 = s.base_configs.length * s.modifiers.length
        ∧ (get_configs s).2.2.2 ≤ s.base_configs.length * s.filters.length) := by
  have hsecond :
      generate_if_needed (get_configs s).2.1 = ((get_configs s).2.1, 0, 0) :=
    generate_of_generated _ (generate_is_generated s)
  refine ⟨?_, ?_, ?_, ?_⟩
  · show (generate_if_needed (get_configs s).2.1).1.configs = _
    rw [hsecond]
    rfl
  · show (generate_if_needed (get_configs s).2.1).1 = _
    rw [hsecond]
  · show (generate_if_needed (get_configs s).2.1).2 = _
    rw [hsecond]
  · intro h
    unfold get_configs generate_if_needed
    simp only [h, Bool.false_eq_true, if_false]
    constructor
    · by_cases hm : s.modifiers.isEmpty
      · rw [List.isEmpty_iff] at hm
        simp [hm]
      · simp only [hm, Bool.false_eq_true, if_false, modifyAll_count]
    · by_cases hf : s.filters.isEmpty
      · rw [List.isEmpty_iff] at hf
        simp [hf]
      · simp only [hf, Bool.false_eq_true, if_false]
        by_cases hm : s.modifiers.isEmpty
        · simpa [hm] using filterAll_count_le s.filters s.base_configs
        · simp only [hm, Bool.false_eq_true, if_false]
          have := filterAll_count_le s.filters (modifyAll s.modifiers s.base_configs).1
          rwa [modifyAll_length] at this

/-- A manager whose single base configuration must pass two filters, the
first of which rejects everything. -/
def mgrFilterCex : ExpManager :=
  ⟨[[]], [], [], [fun _ => false, fun _ => true], false⟩

/-- Counterexample to C5 as stated: with two registered filters whose
first rejects the one configuration, materialisation invokes filters
once in total, not `|filters|·|configs| = 2` times — the second filter
is never applied to the configuration. -/
theorem filters_once_each_cex :
    (get_configs mgrFilterCex).2.2.2 = 1
    ∧ mgrFilterCex.filters.length * mgrFilterCex.base_configs.length = 2 :=
  ⟨rfl, rfl⟩

/-- A manager with one configuration, one modifier and one filter, used
to instantiate the idempotence theorem. -/
def mgrC5 : ExpManager :=
  ⟨[[]], [], [fun c => setAttr c "m" (.scalar (.bool true))],
   [fun _ => true], false⟩

/-- Concrete instance of C5 (amended): the first materialisation of
`mgrC5` performs exactly `1·1` modifier invocations and at most `1·1`
filter invocations. -/
theorem get_configs_idempotent_spec_witness :
    (get_configs mgrC5).2.2.1
        = mgrC5.base_configs.length * mgrC5.modifiers.length
    ∧ (get_configs mgrC5).2.2.2
        ≤ mgrC5.base_configs.length * mgrC5.filters.length :=
  (get_configs_idempotent_spec mgrC5).2.2.2 rfl

/-- `ExpManager.add_grid_search` as a state transformer: it rewrites
only `_base_configs`. -/
def add_grid_searchM (s : ExpManager)
    (grid : List (String × List Value)) : ExpManager :=
  { s with base_configs := add_grid_search s.base_configs grid }

/-- `ExpManager.add_variants` as a state transformer: it rewrites only
`_base_configs`. -/
def add_variantsM (s : ExpManager)
    (vspace : List (String × List Value)) : ExpManager :=
  { s with base_configs := add_variants s.base_configs vspace }

/-- `ExpManager.add_modifier`: append to the modifier list. -/
def add_modifierM (s : ExpManager) (m : Config → Config) : ExpManager :=
  { s with modifiers := s.modifiers ++ [m] }

/-- `ExpManager.add_filter`: append to the filter list. -/
def add_filterM (s : ExpManager) (f : Config → Bool) : ExpManager :=
  { s with filters := s.filters ++ [f] }

/-- `ExpManager.shuffle`: materialise if needed, then reorder
`_configs` in place.  `random.shuffle` is modelled by an explicit
permutation oracle `perm`; any permutation of the list is a possible
outcome of the call. -/
def shuffleM (s : ExpManager)
    (perm : List Config → List Config) : ExpManager :=
  let s1 := (generate_if_needed s).1
  { s1 with configs := perm s1.configs }

/-- C8 (amended): once a manager is materialised, grid expansion,
variant expansion, modifier registration and filter registration leave
the sequence returned by `get_configs` unchanged; `shuffle`, however, is
not a no-op — it replaces the materialised sequence by a permutation of
itself, so only the multiset of configurations is preserved. -/
theorem post_materialization_mutations (s : ExpManager)
    (hgen : s.is_generated = true)
    (grid vspace : List (String × List Value)) (m : Config → Config)
    (f : Config → Bool) (perm : List Config → List Config) :
    (get_configs (add_grid_searchM s grid)).1 = (get_configs s).1
    ∧ (get_configs (add_variantsM s vspace)).1 = (get_configs s).1
    ∧ (get_configs (add_modifierM s m)).1 = (get_configs s).1
    ∧ (get_configs (add_filterM s f)).1 = (get_configs s).1
    ∧ (get_configs (shuffleM s perm)).1 = perm s.configs
    ∧ ((∀ l : List Config, (perm l).Perm l) →
        ((get_configs (shuffleM s perm)).1).Perm (get_configs s).1) := by
  have hbase : (get_configs s).1 = s.configs := by
    show (generate_if_needed s).1.configs = s.configs
    rw [generate_of_generated s hgen]
  have hshuffle : (get_configs (shuffleM s perm)).1 = perm s.configs := by
    show (generate_if_needed (shuffleM s perm)).1.configs = perm s.configs
    have hs1 : shuffleM s perm
        = { s with configs := perm s.configs } := by
      unfold shuffleM
      rw [generate_of_generated s hgen]
    rw [hs1, generate_of_generated { s with configs := perm s.configs } hgen]
  refine ⟨?_, ?_, ?_, ?_, hshuffle, ?_⟩
  · show (generate_if_needed (add_grid_searchM s grid)).1.configs = _
    rw [generate_of_generated (add_grid_searchM s grid) hgen, hbase]
    rfl
  · show (generate_if_needed (add_variantsM s vspace)).1.configs = _
    rw [generate_of_generated (add_variantsM s vspace) hgen, hbase]
    rfl
  · show (generate_if_needed (add_modifierM s m)).1.configs = _
    rw [generate_of_generated (add_modifierM s m) hgen, hbase]
    rfl
  · show (generate_if_needed (add_filterM s f)).1.configs = _
    rw [generate_of_generated (add_filterM s f) hgen, hbase]
    rfl
  · intro hperm
    rw [hshuffle, hbase]
    exact hperm s.configs

/-- A materialised manager holding the two-element sequence
`[{i: true}, {i: false}]` (the state reached by `get_configs` from the
corresponding base set). -/
def mgrShuffled : ExpManager :=
  (get_configs ⟨[[("i", .scalar (.bool true))], [("i", .scalar (.bool false))]],
    [], [], [], false⟩).2.1

/-- Counterexample to C8 as stated: `shuffle` after materialisation is
not a no-op for the sequence — reversing (one possible outcome of
`random.shuffle`) makes the next `get_configs` return a different
sequence than before. -/
theorem shuffle_not_noop_cex :
    (get_configs (shuffleM mgrShuffled List.reverse)).1
      ≠ (get_configs mgrShuffled).1 := by
  decide

/-- Concrete instance of C8 (amended): on the materialised two-element
manager, grid/variant/modifier/filter registrations keep the sequence,
and the reversed shuffle outcome is still a permutation of it. -/
theorem post_materialization_mutations_witness :
    (get_configs (add_grid_searchM mgrShuffled gridEx)).1
        = (get_configs mgrShuffled).1
    ∧ ((get_configs (shuffleM mgrShuffled List.reverse)).1).Perm
        (get_configs mgrShuffled).1 :=
  ⟨(post_materialization_mutations mgrShuffled rfl gridEx [] id
      (fun _ => true) List.reverse).1,
   (post_materialization_mutations mgrShuffled rfl gridEx [] id
      (fun _ => true) List.reverse).2.2.2.2.2
      (fun l => List.reverse_perm l)⟩

/-- The success-marker file name defined at the top of `runner.py`. -/
def SUCCESS_MARKER : String := "_SUCCESS"

/-- One observable action of `ExpRunner._run_single_experiment`, in the
order the code performs them: create the run directory, save the
`args.json` snapshot, invoke the user callable, then either touch the
success marker or write the error log. -/
inductive Event where
  | createDir (path : String)
  | saveJson (path : String) (snapshot : Config)
  | callUser (args : Config)
  | touchSuccess (path : String)
  | writeErrorLog (path : String) (content : String)
  deriving DecidableEq, Repr

/-- The enrichment step of `_run_single_experiment`: `args.setting` and
`args.setting_path` are assigned onto the args object itself (the
`setting_path`, a `Path` in the code, is modelled by its string form,
which is also what the snapshot stores). -/
def enrichArgs (results_root setting_name : String) (args : Config) :
    Config :=
  setAttr (setAttr args "setting" (.scalar (.str setting_name)))
    "setting_path" (.scalar (.str (results_root ++ "/" ++ setting_name)))

/-- `ExpRunner._run_single_experiment` for one run whose identifier is
`setting_name`: enrich the args in place, create the directory, persist
the full enriched snapshot, call the user callable, and finish with the
success marker on normal return or the error log (message plus trace
text) on an exception.  Returns the mutated args object and the event
trace. -/
def run_single_experiment (results_root setting_name : String)
    (exp_function : Config → Except String Unit) (args : Config) :
    Config × List Event :=
  let setting_path := results_root ++ "/" ++ setting_name
  let args2 := enrichArgs results_root setting_name args
  match exp_function args2 with
  | .ok _ =>
      (args2, [.createDir setting_path,
               .saveJson (setting_path ++ "/args.json") args2,
               .callUser args2,
               .touchSuccess (setting_path ++ "/" ++ SUCCESS_MARKER)])
  | .error e =>
      (args2, [.createDir setting_path,
               .saveJson (setting_path ++ "/args.json") args2,
               .callUser args2,
               .writeErrorLog (setting_path ++ "/error.log")
                 ("!!!!!! Experiment " ++ setting_name ++
                   " Failed !!!!!!\n" ++ e)])

/-- Whether a run left the `_SUCCESS` marker. -/
def hasSuccessMarker (evs : List Event) : Bool :=
  evs.any (fun e => match e with
    | .touchSuccess _ => true
    | _ => false)

/-- The `error.log` content a run left, if any. -/
def errorLogContent (evs : List Event) : Option String :=
  evs.findSome? (fun e => match e with
    | .writeErrorLog _ content => some content
    | _ => Option.none)

/-- The dispatch loop shared by every concurrency strategy: run the
configurations in submission order, handing run `i` the identifier
`names i` (modelling the timestamp-plus-random-suffix generator). -/
def runSeqAux (results_root : String) (names : Nat → String)
    (exp_function : Config → Except String Unit) :
    Nat → List Config → List (Config × List Event)
  | _, [] => []
  | i, c :: cs =>
      run_single_experiment results_root (names i) exp_function c ::
        runSeqAux results_root names exp_function (i + 1) cs

/-- The outcome of `ExpRunner.run`: the caller-visible configuration
list after the call (sequential mode mutates the caller's own Namespace
objects; the pool modes mutate per-process copies, leaving the caller's
list untouched) and the per-run results in submission order. -/
structure RunReport where
  caller_configs : List Config
  runs : List (Config × List Event)
  deriving DecidableEq, Repr

/-- `ExpRunner.run`: an empty configuration list returns at once
(before the strategy name is examined); otherwise the four recognised
modes dispatch every run with the identical per-run protocol, and an
unrecognised mode raises `ValueError` — modelled as `Except.error` with
the message from the source. -/
def ExpRunner.run (configs : List Config)
    (exp_function : Config → Except String Unit) (results_root : String)
    (names : Nat → String) (execution_mode : String) :
    Except String RunReport :=
  if configs.length = 0 then .ok ⟨configs, []⟩
  else if execution_mode = "sequential" then
    let rs := runSeqAux results_root names exp_function 0 configs
    .ok ⟨rs.map Prod.fst, rs⟩
  else if execution_mode = "process_pool" then
    .ok ⟨configs, runSeqAux results_root names exp_function 0 configs⟩
  else if execution_mode = "joblib" then
    .ok ⟨configs, runSeqAux results_root names exp_function 0 configs⟩
  else if execution_mode = "dynamic" then
    .ok ⟨configs, runSeqAux results_root names exp_function 0 configs⟩
  else
    .error ("Invalid execution_mode: '" ++ execution_mode ++
      "'. Choose from 'sequential', 'process_pool', 'joblib', 'dynamic'.")

/-- C6: the snapshot of the *entire* enriched configuration is saved
strictly before the user callable is invoked — the first three events of
every run, whatever the callable later does, are directory creation, the
`args.json` save of the enriched args, and only then the call — and the
enriched args carry the injected `setting` and `setting_path`. -/
theorem snapshot_before_callable (results_root setting_name : String)
    (exp_function : Config → Except String Unit) (args : Config) :
    ((run_single_experiment results_root setting_name exp_function args).2).take 3
      = [Event.createDir (results_root ++ "/" ++ setting_name),
         Event.saveJson (results_root ++ "/" ++ setting_name ++ "/args.json")
           (run_single_experiment results_root setting_name exp_function args).1,
         Event.callUser
           (run_single_experiment results_root setting_name exp_function args).1]
    ∧ (run_single_experiment results_root setting_name exp_function args).1
        = enrichArgs results_root setting_name args
    ∧ getAttr? (run_single_experiment results_root setting_name exp_function args).1
        "setting" = some (.scalar (.str setting_name))
    ∧ getAttr? (run_single_experiment results_root setting_name exp_function args).1
        "setting_path"
        = some (.scalar (.str (results_root ++ "/" ++ setting_name))) := by
  have hset : getAttr? (enrichArgs results_root setting_name args) "setting"
      = some (.scalar (.str setting_name)) := by
    unfold enrichArgs
    rw [getAttr?_setAttr_ne _ _ _ _ (by decide), getAttr?_setAttr_self]
  have hpath : getAttr? (enrichArgs results_root setting_name args) "setting_path"
      = some (.scalar (.str (results_root ++ "/" ++ setting_name))) :=
    getAttr?_setAttr_self _ _ _
  rcases hE : exp_function (enrichArgs results_root setting_name args) with e | u
  all_goals
    simp [run_single_experiment, hE, hset, hpath]

/-- C7 (amended): with a non-empty configuration list, an execution mode
outside `{sequential, process_pool, joblib, dynamic}` makes `run` raise
the `ValueError` synchronously — the result is the error, carrying no
run report, so no run directory is created and no callable invoked. -/
theorem invalid_mode_raises (configs : List Config)
    (exp_function : Config → Except String Unit) (results_root : String)
    (names : Nat → String) (execution_mode : String)
    (hne : configs ≠ [])
    (h1 : execution_mode ≠ "sequential")
    (h2 : execution_mode ≠ "process_pool")
    (h3 : execution_mode ≠ "joblib")
    (h4 : execution_mode ≠ "dynamic") :
    ExpRunner.run configs exp_function results_root names execution_mode
      = .error ("Invalid execution_mode: '" ++ execution_mode ++
        "'. Choose from 'sequential', 'process_pool', 'joblib', 'dynamic'.") := by
  have hlen : configs.length ≠ 0 := by
    simpa [List.length_eq_zero] using hne
  unfold ExpRunner.run
  simp [hlen, h1, h2, h3, h4]

/-- Concrete instance of C7 (amended): a one-element batch with the
unrecognised mode `"bogus"` is rejected with the `ValueError`
message. -/
theorem invalid_mode_raises_witness :
    ExpRunner.run [[]] (fun _ => Except.ok ()) "r" (fun _ => "n") "bogus"
      = .error ("Invalid execution_mode: '" ++ "bogus" ++
        "'. Choose from 'sequential', 'process_pool', 'joblib', 'dynamic'.") :=
  invalid_mode_raises [[]] (fun _ => Except.ok ()) "r" (fun _ => "n")
    "bogus" (by decide) (by decide) (by decide) (by decide) (by decide)

/-- Counterexample to C7 as stated: with an *empty* configuration list
the guard `if not total_exps: return` runs first, so `run` returns
normally without examining the invalid mode — no error is raised, contra
"regardless of the configuration list supplied". -/
theorem invalid_mode_empty_configs_cex :
    ExpRunner.run [] (fun _ => Except.ok ()) "r" (fun _ => "n") "bogus"
      = .ok ⟨[], []⟩ :=
  rfl

theorem run_single_fst (results_root setting_name : String)
    (f : Config → Except String Unit) (args : Config) :
    (run_single_experiment results_root setting_name f args).1
      = enrichArgs results_root setting_name args := by
  rcases hE : f (enrichArgs results_root setting_name args) with e | u <;>
    simp [run_single_experiment, hE]

theorem enrichArgs_setting (results_root setting_name : String)
    (args : Config) :
    getAttr? (enrichArgs results_root setting_name args) "setting"
      = some (.scalar (.str setting_name)) := by
  unfold enrichArgs
  rw [getAttr?_setAttr_ne _ _ _ _ (by decide), getAttr?_setAttr_self]

theorem enrichArgs_setting_path (results_root setting_name : String)
    (args : Config) :
    getAttr? (enrichArgs results_root setting_name args) "setting_path"
      = some (.scalar (.str (results_root ++ "/" ++ setting_name))) :=
  getAttr?_setAttr_self _ _ _

theorem runSeqAux_length (results_root : String) (names : Nat → String)
    (f : Config → Except String Unit) (cs : List Config) :
    ∀ i, (runSeqAux results_root names f i cs).length = cs.length := by
  induction cs with
  | nil => intro i; rfl
  | cons c cs ih => intro i; simp [runSeqAux, ih]

theorem runSeqAux_mem (results_root : String) (names : Nat → String)
    (f : Config → Except String Unit) (cs : List Config) :
    ∀ i p, p ∈ runSeqAux results_root names f i cs →
      ∃ j c, c ∈ cs ∧ p = run_single_experiment results_root (names j) f c := by
  induction cs with
  | nil => intro i p hp; cases hp
  | cons c cs ih =>
      intro i p hp
      rcases List.mem_cons.mp hp with h | h
      · exact ⟨i, c, by simp, h⟩
      · obtain ⟨j, c', hc', rfl⟩ := ih (i + 1) p h
        exact ⟨j, c', by simp [hc'], rfl⟩

/-- C10: the runner assigns `setting` and `setting_path` onto the args
object itself; in sequential mode the runs execute in the calling
process, so the caller-visible configuration list after `run` consists
of the enriched objects — every configuration now carries both fields —
whereas a process-pool mode leaves the caller's list untouched (workers
mutate per-process copies). -/
theorem sequential_mutates_caller_configs (configs : List Config)
    (exp_function : Config → Except String Unit) (results_root : String)
    (names : Nat → String) :
    ∃ report : RunReport,
      ExpRunner.run configs exp_function results_root names "sequential"
          = .ok report
      ∧ report.caller_configs.length = configs.length
      ∧ (∀ c' ∈ report.caller_configs,
          (getAttr? c' "setting").isSome ∧ (getAttr? c' "setting_path").isSome)
      ∧ ∃ report' : RunReport,
          ExpRunner.run configs exp_function results_root names "process_pool"
              = .ok report'
          ∧ report'.caller_configs = configs := by
  by_cases hc : configs.length = 0
  · refine ⟨⟨configs, []⟩, ?_, rfl, ?_, ⟨configs, []⟩, ?_, rfl⟩
    · unfold ExpRunner.run
      simp [hc]
    · intro c' hc'
      rw [List.length_eq_zero] at hc
      subst hc
      cases hc'
    · unfold ExpRunner.run
      simp [hc]
  · refine ⟨⟨(runSeqAux results_root names exp_function 0 configs).map Prod.fst,
        runSeqAux results_root names exp_function 0 configs⟩, ?_, ?_, ?_,
        ⟨configs, runSeqAux results_root names exp_function 0 configs⟩, ?_, rfl⟩
    · unfold ExpRunner.run
      simp [hc]
    · simp [runSeqAux_length]
    · intro c' hc'
      obtain ⟨p, hp, rfl⟩ := List.mem_map.mp hc'
      obtain ⟨j, c, _, rfl⟩ := runSeqAux_mem results_root names exp_function
        configs 0 p hp
      rw [run_single_fst, enrichArgs_setting, enrichArgs_setting_path]
      exact ⟨rfl, rfl⟩
    · unfold ExpRunner.run
      simp [hc]

/-- Whether the user callable returned normally (`True`) or raised
(`False`). -/
def isOkB : Except String Unit → Bool
  | .ok _ => true
  | .error _ => false

/-- Runs that left the success marker and no error log. -/
def countSuccess (runs : List (Config × List Event)) : Nat :=
  runs.countP (fun r => hasSuccessMarker r.2 && !(errorLogContent r.2).isSome)

/-- Runs that left an error log and no success marker. -/
def countFailed (runs : List (Config × List Event)) : Nat :=
  runs.countP (fun r => !(hasSuccessMarker r.2) && (errorLogContent r.2).isSome)

theorem run_single_marker (results_root setting_name : String)
    (f : Config → Except String Unit) (args : Config) :
    hasSuccessMarker (run_single_experiment results_root setting_name f args).2
      = isOkB (f (enrichArgs results_root setting_name args)) := by
  rcases hE : f (enrichArgs results_root setting_name args) with e | u <;>
    simp [run_single_experiment, hE, hasSuccessMarker, isOkB]

theorem run_single_errlog (results_root setting_name : String)
    (f : Config → Except String Unit) (args : Config) :
    (errorLogContent
        (run_single_experiment results_root setting_name f args).2).isSome
      = !isOkB (f (enrichArgs results_root setting_name args)) := by
  rcases hE : f (enrichArgs results_root setting_name args) with e | u <;>
    simp [run_single_experiment, hE, errorLogContent, isOkB]

theorem countSuccess_cons (x : Config × List Event)
    (l : List (Config × List Event)) :
    countSuccess (x :: l) = countSuccess l
      + (if hasSuccessMarker x.2 && !(errorLogContent x.2).isSome
         then 1 else 0) :=
  List.countP_cons _ _ _

theorem countFailed_cons (x : Config × List Event)
    (l : List (Config × List Event)) :
    countFailed (x :: l) = countFailed l
      + (if !(hasSuccessMarker x.2) && (errorLogContent x.2).isSome
         then 1 else 0) :=
  List.countP_cons _ _ _

theorem countP_not_add (l : List Nat) (p : Nat → Bool) :
    l.countP (fun a => !p a) + l.countP p = l.length := by
  induction l with
  | nil => rfl
  | cons a l ih =>
      rw [List.countP_cons, List.countP_cons]
      by_cases h : p a <;> simp [h] <;> omega

theorem countP_multiples (M : Nat) (hM : 0 < M) (N : Nat) :
    (List.range N).countP (fun j => decide (j % M = 0))
      = (N + M - 1) / M := by
  induction N with
  | zero =>
      simp only [List.range_zero, List.countP_nil]
      exact (Nat.div_eq_of_lt (by omega)).symm
  | succ N ih =>
      rw [List.range_succ, List.countP_append, ih]
      have h2 : N + 1 + M - 1 = (N + M - 1) + 1 := by omega
      rw [h2, Nat.succ_div]
      have h3 : N + M - 1 + 1 = N + M := by omega
      rw [h3]
      by_cases hd : M ∣ N
      · have hmod : N % M = 0 := Nat.dvd_iff_mod_eq_zero.mp hd
        have hd2 : M ∣ N + M := Nat.dvd_add_self_right.mpr hd
        simp [hmod, hd2, List.countP_cons]
      · have hmod : ¬ N % M = 0 :=
          fun h => hd (Nat.dvd_iff_mod_eq_zero.mpr h)
        have hd2 : ¬ M ∣ N + M := fun h => hd (Nat.dvd_add_self_right.mp h)
        simp [hmod, hd2, List.countP_cons]

theorem runSeqAux_counts (results_root : String) (names : Nat → String)
    (f : Config → Except String Unit) (M : Nat) (cs : List Config) :
    ∀ i, (∀ j (hj : j < cs.length),
        isOkB (f (enrichArgs results_root (names (i + j)) (cs.get ⟨j, hj⟩)))
          = !decide ((i + j) % M = 0)) →
      countSuccess (runSeqAux results_root names f i cs)
          = (List.range cs.length).countP (fun j => !decide ((i + j) % M = 0))
      ∧ countFailed (runSeqAux results_root names f i cs)
          = (List.range cs.length).countP (fun j => decide ((i + j) % M = 0)) := by
  induction cs with
  | nil =>
      intro i _
      simp [runSeqAux, countSuccess, countFailed]
  | cons c cs ih =>
      intro i hpat
      have hhead : isOkB (f (enrichArgs results_root (names i) c))
          = !decide (i % M = 0) := by
        have h := hpat 0 (by simp)
        simpa using h
      have htail := ih (i + 1) (fun j hj => by
        have h := hpat (j + 1) (by simpa using Nat.succ_lt_succ hj)
        have e : i + (j + 1) = i + 1 + j := by omega
        rw [e] at h
        simpa using h)
      have hstep : runSeqAux results_root names f i (c :: cs)
          = run_single_experiment results_root (names i) f c ::
              runSeqAux results_root names f (i + 1) cs := rfl
      have hmark := run_single_marker results_root (names i) f c
      have herr := run_single_errlog results_root (names i) f c
      rw [hstep, List.length_cons, List.range_succ_eq_map,
        countSuccess_cons, countFailed_cons, htail.1, htail.2,
        hmark, herr, hhead, List.countP_cons, List.countP_cons,
        List.countP_map, List.countP_map]
      have hcongrS : (List.range cs.length).countP
            ((fun j => !decide ((i + j) % M = 0)) ∘ Nat.succ)
          = (List.range cs.length).countP
            (fun j => !decide ((i + 1 + j) % M = 0)) :=
        List.countP_congr (fun a _ => by
          have e : i + (a + 1) = i + 1 + a := by omega
          simp [Function.comp, e])
      have hcongrF : (List.range cs.length).countP
            ((fun j => decide ((i + j) % M = 0)) ∘ Nat.succ)
          = (List.range cs.length).countP
            (fun j => decide ((i + 1 + j) % M = 0)) :=
        List.countP_congr (fun a _ => by
          have e : i + (a + 1) = i + 1 + a := by omega
          simp [Function.comp, e])
      rw [hcongrS, hcongrF]
      constructor
      · simp [Bool.not_not, Bool.and_self]
      · simp [Bool.not_not, Bool.and_self]

/-- C2: if in a sequential batch of N runs exactly every M-th callable
raises (0-indexed: run i raises iff i mod M = 0), then the dispatch call
returns normally with its report, exactly N − ⌈N/M⌉ runs end with the
success marker and no error log, and the remaining ⌈N/M⌉ runs end with
an error log and no success marker. -/
theorem failure_containment_counts (configs : List Config)
    (exp_function : Config → Except String Unit) (results_root : String)
    (names : Nat → String) (M : Nat) (hM : 0 < M)
    (hpat : ∀ j (hj : j < configs.length),
      isOkB (exp_function
          (enrichArgs results_root (names j) (configs.get ⟨j, hj⟩)))
        = !decide (j % M = 0)) :
    ∃ report : RunReport,
      ExpRunner.run configs exp_function results_root names "sequential"
          = .ok report
      ∧ countSuccess report.runs
          = configs.length - (configs.length + M - 1) / M
      ∧ countFailed report.runs = (configs.length + M - 1) / M := by
  by_cases hc : configs.length = 0
  · refine ⟨⟨configs, []⟩, ?_, ?_, ?_⟩
    · unfold ExpRunner.run
      simp [hc]
    · simp [countSuccess, hc]
    · have : (configs.length + M - 1) / M = 0 := by
        rw [hc]
        exact Nat.div_eq_of_lt (by omega)
      simp [countFailed, this]
  · have hcounts := runSeqAux_counts results_root names exp_function M
      configs 0 (fun j hj => by simpa using hpat j hj)
    have hzS : (List.range configs.length).countP
          (fun j => !decide ((0 + j) % M = 0))
        = (List.range configs.length).countP
          (fun j => !decide (j % M = 0)) :=
      List.countP_congr (fun a _ => by simp)
    have hzF : (List.range configs.length).countP
          (fun j => decide ((0 + j) % M = 0))
        = (List.range configs.length).countP
          (fun j => decide (j % M = 0)) :=
      List.countP_congr (fun a _ => by simp)
    refine ⟨⟨(runSeqAux results_root names exp_function 0 configs).map Prod.fst,
        runSeqAux results_root names exp_function 0 configs⟩, ?_, ?_, ?_⟩
    · unfold ExpRunner.run
      simp [hc]
    · have hnot := countP_not_add (List.range configs.length)
        (fun j => decide (j % M = 0))
      have hmul := countP_multiples M hM configs.length
      have hS := hcounts.1
      rw [hzS] at hS
      rw [List.length_range] at hnot
      simp only [hS]
      omega
    · have hF := hcounts.2
      rw [hzF] at hF
      simp only [hF]
      exact countP_multiples M hM configs.length

/-- The run-identifier supply used in the concrete C2 instance. -/
def namesEx : Nat → String := fun i => if i = 0 then "a" else "b"

/-- A callable that raises exactly on the run whose injected `setting`
is `"a"` (the 0th run). -/
def fEx : Config → Except String Unit := fun c =>
  if getAttr? c "setting" = some (.scalar (.str "a")) then .error "boom"
  else .ok ()

/-- Concrete instance of C2: two runs with every 2nd callable (0-indexed)
raising — one success with marker, one failure with error log, and the
dispatch returns normally. -/
theorem failure_containment_counts_witness :
    ∃ report : RunReport,
      ExpRunner.run [[], []] fEx "r" namesEx "sequential" = .ok report
      ∧ countSuccess report.runs = 1
      ∧ countFailed report.runs = 1 := by
  obtain ⟨report, h1, h2, h3⟩ := failure_containment_counts [[], []] fEx "r"
    namesEx 2 (by decide) (by decide)
  exact ⟨report, h1, by simpa using h2, by simpa using h3⟩

end Ztxexp
